import Mathlib

/-!
Verification of the analysis-pipeline core of the
`physics-ai-bridging-the-gap` repository.

The repository's notebooks wire a fixed pipeline — train/test split,
per-column standardization, PCA projection, k-means clustering,
random-forest classification, confusion-matrix evaluation — over
synthetic datasets.  The statistical components themselves are library
calls, so the component behaviour checked here is modelled from the
specification (each such definition carries a `Modelled from the spec:`
doc comment); the synthetic-label generation is embedded directly from
the notebook source.  Numeric features are embedded as rationals (`ℚ`),
labels as naturals.
-/

namespace PhysicsAI

/-- Error taxonomy of the pipeline (spec §7). -/
inductive PipelineError where
  | ShapeMismatchError
  | InvalidDimensionError
  | DegenerateFeatureError
  | EmptyTrainingSetError
  | LabelCardinalityError
  | LabelMismatchError
  deriving Repr, DecidableEq

/-- Arithmetic mean of a list of rationals (`0` on the empty list,
since `x / 0 = 0` in `ℚ`). -/
def mean (xs : List ℚ) : ℚ := xs.sum / xs.length

/-- Population variance (denominator `n`, as used by the library scaler). -/
def variance (xs : List ℚ) : ℚ :=
  ((xs.map (fun x => (x - mean xs) ^ 2)).sum) / xs.length

/-- Rational square root, exact whenever the numerator and denominator are
perfect squares; an approximation otherwise, mirroring the inexactness of
floating-point `sqrt`. -/
def ratSqrt (q : ℚ) : ℚ := (Nat.sqrt q.num.toNat : ℚ) / (Nat.sqrt q.den : ℚ)

/-- The `j`-th column of a row-major matrix (missing entries read as `0`). -/
def column (m : List (List ℚ)) (j : Nat) : List ℚ := m.map (fun r => r.getD j 0)

/-- Number of feature columns of a row-major matrix. -/
def nCols (m : List (List ℚ)) : Nat := (m.headD []).length

/-- Fitted Scaler state: per-feature mean and standard deviation (spec §3). -/
structure ScalerState where
  mu : List ℚ
  sigma : List ℚ
  deriving Repr, DecidableEq

/-- Modelled from the spec: the Scaler's `fit` (§4.1).  The scaler
implementation (`sklearn.preprocessing.StandardScaler`) is not part of this
repository's sources; per the spec, `fit` computes the column-wise mean μ and
standard deviation σ of the training matrix and fails with
`DegenerateFeatureError` when some column has σ = 0 (equivalently, zero
variance). -/
def scalerFit (m : List (List ℚ)) : Except PipelineError ScalerState :=
  if ∃ j < nCols m, variance (column m j) = 0 then
    .error .DegenerateFeatureError
  else
    .ok ⟨(List.range (nCols m)).map (fun j => mean (column m j)),
         (List.range (nCols m)).map (fun j => ratSqrt (variance (column m j)))⟩

/-- Modelled from the spec: the Scaler's `transform` (§4.1),
`matrix'[i][j] = (matrix[i][j] - μ[j]) / σ[j]`. -/
def scalerTransform (m : List (List ℚ)) (st : ScalerState) : List (List ℚ) :=
  m.map (fun r => (List.range r.length).map
    (fun j => (r.getD j 0 - st.mu.getD j 0) / st.sigma.getD j 0))

theorem sum_map_sub_const (xs : List ℚ) (c : ℚ) :
    (xs.map (fun x => x - c)).sum = xs.sum - xs.length * c := by
  induction xs with
  | nil => simp
  | cons a t ih =>
      simp only [List.map_cons, List.sum_cons, ih, List.length_cons]
      push_cast
      ring

theorem sum_map_div (xs : List ℚ) (f : ℚ → ℚ) (s : ℚ) :
    (xs.map (fun x => f x / s)).sum = (xs.map f).sum / s := by
  induction xs with
  | nil => simp
  | cons a t ih => simp [ih, div_add_div_same]

theorem sum_map_center (xs : List ℚ) :
    (xs.map (fun x => x - mean xs)).sum = 0 := by
  rcases eq_or_ne xs [] with h | h
  · simp [h]
  · have hn : (xs.length : ℚ) ≠ 0 := by
      exact_mod_cast fun hl => h (List.length_eq_zero.mp hl)
    rw [sum_map_sub_const, mean]
    field_simp

theorem mean_center_scale (xs : List ℚ) (s : ℚ) :
    mean (xs.map (fun x => (x - mean xs) / s)) = 0 := by
  have h1 : (xs.map (fun x => (x - mean xs) / s)).sum = 0 := by
    rw [sum_map_div xs (fun x => x - mean xs) s, sum_map_center, zero_div]
  rw [mean, h1, zero_div]

theorem sum_map_sq_scale (xs : List ℚ) (c s : ℚ) :
    (xs.map (fun x => ((x - c) / s) ^ 2)).sum
      = (xs.map (fun x => (x - c) ^ 2)).sum / s ^ 2 := by
  have h : ∀ x : ℚ, ((x - c) / s) ^ 2 = (x - c) ^ 2 / s ^ 2 :=
    fun x => div_pow _ _ _
  simp only [h]
  exact sum_map_div xs (fun x => (x - c) ^ 2) (s ^ 2)

theorem variance_nonempty_of_ne_zero {xs : List ℚ} (h : variance xs ≠ 0) :
    (xs.length : ℚ) ≠ 0 := by
  intro hl
  apply h
  rw [variance, hl, div_zero]

theorem variance_center_scale (xs : List ℚ) (s : ℚ)
    (hs : s ^ 2 = variance xs) (h0 : variance xs ≠ 0) :
    variance (xs.map (fun x => (x - mean xs) / s)) = 1 := by
  have hn : (xs.length : ℚ) ≠ 0 := variance_nonempty_of_ne_zero h0
  have hmean : mean (xs.map (fun x => (x - mean xs) / s)) = 0 :=
    mean_center_scale xs s
  rw [variance, hmean]
  simp only [sub_zero, List.map_map, Function.comp_def, List.length_map]
  rw [sum_map_sq_scale, hs]
  have hsum : (xs.map (fun x => (x - mean xs) ^ 2)).sum
      = variance xs * xs.length := by
    rw [variance]
    field_simp
  rw [hsum]
  field_simp

theorem getD_map_range {β : Type} (f : Nat → β) (d j : Nat) (dflt : β)
    (hj : j < d) :
    ((List.range d).map f).getD j dflt = f j := by
  rw [List.getD_eq_getElem _ _ (by simpa using hj)]
  simp

theorem column_scalerTransform (m : List (List ℚ)) (st : ScalerState)
    (hWF : ∀ r ∈ m, r.length = nCols m) (j : Nat) (hj : j < nCols m) :
    column (scalerTransform m st) j
      = (column m j).map (fun x => (x - st.mu.getD j 0) / st.sigma.getD j 0) := by
  unfold column scalerTransform
  rw [List.map_map, List.map_map]
  apply List.map_congr_left
  intro r hr
  simp only [Function.comp]
  rw [getD_map_range _ _ _ _ (by rw [hWF r hr]; exact hj)]

/-- **C1.** For every training matrix containing at least one column whose
standard deviation (equivalently, variance) is 0, the Scaler's `fit` fails
with `DegenerateFeatureError` rather than producing a fitted state. -/
theorem scalerFit_degenerate (m : List (List ℚ)) (j : Nat)
    (hj : j < nCols m) (hv : variance (column m j) = 0) :
    scalerFit m = .error .DegenerateFeatureError := by
  rw [scalerFit, if_pos ⟨j, hj, hv⟩]

/-- Witness for C1: a 2×2 matrix whose first column is constant. -/
theorem scalerFit_degenerate_witness :
    0 < nCols [[(1:ℚ), 2], [1, 3]] ∧
    variance (column [[(1:ℚ), 2], [1, 3]] 0) = 0 ∧
    scalerFit [[(1:ℚ), 2], [1, 3]] = .error .DegenerateFeatureError := by
  refine ⟨by norm_num [nCols], ?_, ?_⟩
  · norm_num [variance, column, mean]
  · exact scalerFit_degenerate _ 0 (by norm_num [nCols])
      (by norm_num [variance, column, mean])

theorem scalerFit_ok_elim {m : List (List ℚ)} {st : ScalerState}
    (hfit : scalerFit m = .ok st) :
    st.mu = (List.range (nCols m)).map (fun j => mean (column m j)) ∧
    st.sigma = (List.range (nCols m)).map (fun j => ratSqrt (variance (column m j))) ∧
    ∀ j < nCols m, variance (column m j) ≠ 0 := by
  rw [scalerFit] at hfit
  by_cases h : ∃ j < nCols m, variance (column m j) = 0
  · rw [if_pos h] at hfit
    exact absurd hfit (by simp)
  · rw [if_neg h] at hfit
    push_neg at h
    rw [Except.ok.injEq] at hfit
    subst hfit
    exact ⟨rfl, rfl, h⟩

/-- **C2.** With a fitted scaler state (per-column mean μ and standard
deviation σ computed from the training matrix), `transform` applied to
*every* matrix — training, test, or any future data — returns a matrix with
entry `(i, j)` equal to `(matrix[i][j] - μ[j]) / σ[j]`; consequently,
transforming the training matrix with its own fitted state yields column
means exactly 0, and column variance exactly 1 on every column where the
rational square root is exact (the float implementation only attains these
up to rounding, which the exactness hypothesis models). -/
theorem scalerTransform_spec (m : List (List ℚ)) (st : ScalerState)
    (hfit : scalerFit m = .ok st)
    (hWF : ∀ r ∈ m, r.length = nCols m) :
    (∀ (x : List (List ℚ)) (i j : Nat), i < x.length → j < (x.getD i []).length →
      ((scalerTransform x st).getD i []).getD j 0
        = ((x.getD i []).getD j 0 - st.mu.getD j 0) / st.sigma.getD j 0) ∧
    (∀ j, j < nCols m → mean (column (scalerTransform m st) j) = 0) ∧
    (∀ j, j < nCols m →
      ratSqrt (variance (column m j)) ^ 2 = variance (column m j) →
      variance (column (scalerTransform m st) j) = 1) := by
  obtain ⟨hmu, hsigma, hnz⟩ := scalerFit_ok_elim hfit
  have hmuj : ∀ j < nCols m, st.mu.getD j 0 = mean (column m j) := by
    intro j hj
    rw [hmu, getD_map_range _ _ _ _ hj]
  have hsigmaj : ∀ j < nCols m,
      st.sigma.getD j 0 = ratSqrt (variance (column m j)) := by
    intro j hj
    rw [hsigma, getD_map_range _ _ _ _ hj]
  refine ⟨?_, ?_, ?_⟩
  · intro x i j hi hj
    have hi' : i < (scalerTransform x st).length := by
      simpa [scalerTransform] using hi
    rw [List.getD_eq_getElem _ _ hi', List.getD_eq_getElem _ _ hi]
    have hrow : (scalerTransform x st)[i]
        = (List.range x[i].length).map
            (fun j => (x[i].getD j 0 - st.mu.getD j 0) / st.sigma.getD j 0) := by
      simp [scalerTransform]
    have hj' : j < x[i].length := by
      rw [List.getD_eq_getElem _ _ hi] at hj
      exact hj
    rw [hrow, getD_map_range _ _ _ _ hj']
  · intro j hj
    rw [column_scalerTransform m st hWF j hj, hmuj j hj]
    exact mean_center_scale _ _
  · intro j hj hsq
    rw [column_scalerTransform m st hWF j hj, hmuj j hj, hsigmaj j hj]
    exact variance_center_scale _ _ hsq (hnz j hj)

/-- Witness for C2: the 2×1 training matrix `[[0], [2]]` (mean 1, variance 1,
σ = 1), with the entry formula also exercised on the separate matrix
`[[4]]` transformed by the training-fitted state. -/
theorem scalerTransform_spec_witness :
    scalerFit [[(0:ℚ)], [2]] = .ok ⟨[1], [1]⟩ ∧
    (∀ r ∈ [[(0:ℚ)], [2]], r.length = nCols [[(0:ℚ)], [2]]) ∧
    ((scalerTransform [[(4:ℚ)]] ⟨[1], [1]⟩).getD 0 []).getD 0 0
      = ((([[(4:ℚ)]] : List (List ℚ)).getD 0 []).getD 0 0
          - ([1] : List ℚ).getD 0 0) / ([1] : List ℚ).getD 0 0 ∧
    mean (column (scalerTransform [[(0:ℚ)], [2]] ⟨[1], [1]⟩) 0) = 0 ∧
    variance (column (scalerTransform [[(0:ℚ)], [2]] ⟨[1], [1]⟩) 0) = 1 := by
  have hvar : variance (column [[(0:ℚ)], [2]] 0) = 1 := by
    norm_num [variance, column, mean]
  have hsqrt : ratSqrt (variance (column [[(0:ℚ)], [2]] 0)) = 1 := by
    rw [hvar]
    norm_num [ratSqrt]
  have hmean0 : mean (column [[(0:ℚ)], [2]] 0) = 1 := by
    norm_num [mean, column]
  have hno : ¬∃ j < nCols [[(0:ℚ)], [2]], variance (column [[(0:ℚ)], [2]] j) = 0 := by
    rintro ⟨j, hj, hv⟩
    have h1 : nCols [[(0:ℚ)], [2]] = 1 := rfl
    rw [h1] at hj
    interval_cases j
    rw [hvar] at hv
    norm_num at hv
  have hfit : scalerFit [[(0:ℚ)], [2]] = .ok ⟨[1], [1]⟩ := by
    rw [scalerFit, if_neg hno]
    have hr : List.range (nCols [[(0:ℚ)], [2]]) = [0] := rfl
    rw [hr]
    simp only [List.map_cons, List.map_nil]
    rw [hmean0, hsqrt]
  have hWF : ∀ r ∈ [[(0:ℚ)], [2]], r.length = nCols [[(0:ℚ)], [2]] := by
    intro r hr
    simp only [List.mem_cons, List.not_mem_nil, or_false] at hr
    rcases hr with rfl | rfl <;> rfl
  refine ⟨hfit, hWF, ?_, ?_, ?_⟩
  · exact (scalerTransform_spec _ _ hfit hWF).1 [[(4:ℚ)]] 0 0 (by simp) (by simp)
  · exact (scalerTransform_spec _ _ hfit hWF).2.1 0 (by norm_num [nCols])
  · exact (scalerTransform_spec _ _ hfit hWF).2.2 0 (by norm_num [nCols])
      (by rw [hsqrt, hvar]; norm_num)

/-- Linear congruential step: the seeded pseudo-random generator driving the
modelled pipeline stages (split shuffling, centroid seeding, bootstrap). -/
def lcg (s : Nat) : Nat := (1103515245 * s + 12345) % 4294967296

/-- Modelled from the spec: the seeded pseudo-random shuffle underlying the
dataset split (§3, "deterministic pseudo-random assignment seeded for
reproducibility"); the split implementation
(`sklearn.model_selection.train_test_split`) is not part of this
repository's sources.  Repeatedly extracts a pseudo-randomly chosen element. -/
def shuffleAux {α : Type} [DecidableEq α] : Nat → Nat → List α → List α
  | 0, _, xs => xs
  | _ + 1, _, [] => []
  | fuel + 1, s, x0 :: rest =>
      let y := (x0 :: rest).getD (s % (x0 :: rest).length) x0
      y :: shuffleAux fuel (lcg s) ((x0 :: rest).erase y)

/-- Seeded shuffle of a list (enough fuel to exhaust it). -/
def shuffle {α : Type} [DecidableEq α] (seed : Nat) (xs : List α) : List α :=
  shuffleAux xs.length seed xs

theorem shuffleAux_perm {α : Type} [DecidableEq α] :
    ∀ (fuel s : Nat) (xs : List α), (shuffleAux fuel s xs).Perm xs := by
  intro fuel
  induction fuel with
  | zero => intro s xs; exact List.Perm.refl _
  | succ n ih =>
      intro s xs
      match xs with
      | [] => exact List.Perm.refl _
      | x0 :: rest =>
          have hlen : s % (x0 :: rest).length < (x0 :: rest).length :=
            Nat.mod_lt _ (by simp)
          have hy : (x0 :: rest).getD (s % (x0 :: rest).length) x0 ∈ x0 :: rest := by
            rw [List.getD_eq_getElem _ _ hlen]
            exact List.getElem_mem _
          rw [shuffleAux]
          exact ((ih _ _).cons _).trans (List.perm_cons_erase hy).symm

theorem shuffle_perm {α : Type} [DecidableEq α] (seed : Nat) (xs : List α) :
    (shuffle seed xs).Perm xs := shuffleAux_perm _ _ _

/-- Modelled from the spec: the dataset split with test fraction 0.3 (§3 and
the notebooks' `train_test_split(..., test_size=0.3, random_state=42)`):
shuffle with the seeded generator, cut off ⌈0.3·n⌉ samples as the test
subset, keep the rest as the training subset.  Returns `(train, test)`. -/
def trainTestSplit {α : Type} [DecidableEq α] (xs : List α) (seed : Nat) :
    List α × List α :=
  let sh := shuffle seed xs
  let nTest := (3 * xs.length + 9) / 10
  (sh.drop nTest, sh.take nTest)

/-- **C3.** The split with test fraction 0.3 produces train and test subsets
whose concatenation is a permutation of the original dataset (every sample
lands in exactly one subset, multiplicity included) and which are disjoint
whenever the dataset has no duplicate samples; class proportions play no
role. -/
theorem trainTestSplit_partition {α : Type} [DecidableEq α]
    (xs : List α) (seed : Nat) :
    (((trainTestSplit xs seed).1 ++ (trainTestSplit xs seed).2).Perm xs) ∧
    (xs.Nodup → (trainTestSplit xs seed).1.Disjoint (trainTestSplit xs seed).2) := by
  have hsh : (shuffle seed xs).Perm xs := shuffle_perm seed xs
  have h1 : (trainTestSplit xs seed).1
      = (shuffle seed xs).drop ((3 * xs.length + 9) / 10) := rfl
  have h2 : (trainTestSplit xs seed).2
      = (shuffle seed xs).take ((3 * xs.length + 9) / 10) := rfl
  constructor
  · rw [h1, h2]
    exact List.perm_append_comm.trans (by rw [List.take_append_drop]; exact hsh)
  · intro hnd
    have hnd' : (shuffle seed xs).Nodup := hsh.symm.nodup hnd
    rw [h1, h2]
    exact (List.disjoint_take_drop hnd' le_rfl).symm

/-- Witness for C3: a concrete four-sample dataset without duplicates. -/
theorem trainTestSplit_partition_witness :
    ([0, 1, 2, 3] : List Nat).Nodup ∧
    (trainTestSplit [0, 1, 2, 3] 7).1.Disjoint (trainTestSplit [0, 1, 2, 3] 7).2 ∧
    (((trainTestSplit [0, 1, 2, 3] 7).1 ++ (trainTestSplit [0, 1, 2, 3] 7).2).Perm
      ([0, 1, 2, 3] : List Nat)) :=
  ⟨by decide, (trainTestSplit_partition [0, 1, 2, 3] 7).2 (by decide),
    (trainTestSplit_partition [0, 1, 2, 3] 7).1⟩

/-- Squared Euclidean distance between two points. -/
def sqDist (p q : List ℚ) : ℚ :=
  ((p.zip q).map (fun ab => (ab.1 - ab.2) ^ 2)).sum

/-- Index of the nearest centroid, ties broken by lowest centroid index. -/
def nearestCentroid (cs : List (List ℚ)) (p : List ℚ) : Nat :=
  (List.range cs.length).foldl
    (fun best j =>
      if sqDist p (cs.getD j []) < sqDist p (cs.getD best []) then j else best) 0

/-- Assignment of every point to its nearest centroid. -/
def assignAll (cs : List (List ℚ)) (pts : List (List ℚ)) : List Nat :=
  pts.map (nearestCentroid cs)

/-- Coordinate-wise mean of a collection of `d`-dimensional points. -/
def meanPoint (d : Nat) (ps : List (List ℚ)) : List ℚ :=
  (List.range d).map (fun j => mean (column ps j))

/-- The points carrying a given assignment label. -/
def clusterPoints (pts : List (List ℚ)) (a : List Nat) (i : Nat) :
    List (List ℚ) :=
  ((pts.zip a).filter (fun pa => decide (pa.2 = i))).map Prod.fst

/-- Modelled from the spec (§4.3): recompute each centroid as the mean of its
assigned points; an empty cluster is re-seeded to a pseudo-random data point
instead of producing an undefined empty mean. -/
def recomputeCentroids (pts : List (List ℚ)) (a : List Nat) (k rng : Nat) :
    List (List ℚ) :=
  (List.range k).map (fun i =>
    if clusterPoints pts a i = [] then pts.getD ((rng + i) % pts.length) []
    else meanPoint (nCols pts) (clusterPoints pts a i))

/-- Fitted Clusterer state: final centroids and the iteration count (§4.3). -/
structure ClusterState where
  centroids : List (List ℚ)
  iterations : Nat
  deriving Repr, DecidableEq

/-- The fixed iteration cap bounding the refinement loop (§4.3). -/
def maxIterations : Nat := 300

/-- Modelled from the spec (§4.3): the assign/recompute refinement loop; it
stops when the assignment is unchanged between two consecutive iterations or
when the fuel (the iteration cap) runs out, returning a best-effort state
rather than an error. -/
def kmeansLoop (pts : List (List ℚ)) (k rng : Nat) :
    Nat → List (List ℚ) → List Nat → Nat → ClusterState
  | 0, cs, _, iter => ⟨cs, iter⟩
  | fuel + 1, cs, prev, iter =>
      let a := assignAll cs pts
      if a = prev then ⟨cs, iter⟩
      else kmeansLoop pts k rng fuel (recomputeCentroids pts a k rng) a (iter + 1)

/-- Modelled from the spec (§4.3): `KMeans(n_clusters=k, random_state=seed)`
fitting (the implementation, `sklearn.cluster.KMeans`, is not part of this
repository's sources): seeded pseudo-random selection of `k` initial
centroids from the input points, then iterative refinement up to the cap. -/
def kmeansFit (pts : List (List ℚ)) (k seed : Nat) : ClusterState :=
  kmeansLoop pts k (lcg seed) maxIterations
    ((List.range k).map (fun i => pts.getD (lcg (seed + i) % pts.length) [])) [] 0

/-- Modelled from the spec (§4.3): `predict` assigns each row to its nearest
stored centroid; it reads only the centroids and does not mutate the state. -/
def kmeansPredict (pts : List (List ℚ)) (st : ClusterState) : List Nat :=
  assignAll st.centroids pts

theorem nearestCentroid_single (c p : List ℚ) : nearestCentroid [c] p = 0 := by
  have h : List.range 1 = [0] := rfl
  simp [nearestCentroid, h]

theorem assignAll_single (c : List ℚ) (pts : List (List ℚ)) :
    assignAll [c] pts = List.replicate pts.length 0 := by
  induction pts with
  | nil => rfl
  | cons p t ih =>
      simp only [assignAll, List.map_cons, List.length_cons,
        List.replicate_succ, nearestCentroid_single] at ih ⊢
      rw [ih]

theorem clusterPoints_replicate_zero (pts : List (List ℚ)) :
    clusterPoints pts (List.replicate pts.length 0) 0 = pts := by
  induction pts with
  | nil => rfl
  | cons p t ih =>
      simp only [clusterPoints, List.length_cons, List.replicate_succ,
        List.zip_cons_cons, List.filter_cons] at ih ⊢
      simpa using ih

theorem kmeansLoop_single_step (pts : List (List ℚ)) (hne : pts ≠ [])
    (c : List ℚ) (rng f iter : Nat) :
    kmeansLoop pts 1 rng (f + 2) [c] [] iter
      = ⟨[meanPoint (nCols pts) pts], iter + 1⟩ := by
  have hz : assignAll [c] pts = List.replicate pts.length 0 :=
    assignAll_single c pts
  have hnz : List.replicate pts.length 0 ≠ ([] : List Nat) := by
    intro h
    have hlen := congrArg List.length h
    simp only [List.length_replicate, List.length_nil] at hlen
    exact hne (List.length_eq_zero.mp hlen)
  have hrec : recomputeCentroids pts (List.replicate pts.length 0) 1 rng
      = [meanPoint (nCols pts) pts] := by
    have h1 : List.range 1 = [0] := rfl
    simp only [recomputeCentroids, h1, List.map_cons, List.map_nil]
    rw [clusterPoints_replicate_zero, if_neg hne]
  have step1 : kmeansLoop pts 1 rng (f + 2) [c] [] iter
      = kmeansLoop pts 1 rng (f + 1)
          (recomputeCentroids pts (List.replicate pts.length 0) 1 rng)
          (List.replicate pts.length 0) (iter + 1) := by
    show kmeansLoop pts 1 rng ((f + 1) + 1) [c] [] iter = _
    simp only [kmeansLoop, hz]
    rw [if_neg hnz]
  have step2 : kmeansLoop pts 1 rng (f + 1) [meanPoint (nCols pts) pts]
      (List.replicate pts.length 0) (iter + 1)
      = ⟨[meanPoint (nCols pts) pts], iter + 1⟩ := by
    simp [kmeansLoop, assignAll_single]
  rw [step1, hrec, step2]

/-- **C5.** On every non-empty input, fitting the Clusterer with `k = 1`
produces exactly one centroid, equal to the coordinate-wise mean of all
input points, and `predict` assigns every point to that single centroid
(label 0). -/
theorem kmeansFit_k1 (pts : List (List ℚ)) (seed : Nat) (hne : pts ≠ []) :
    kmeansFit pts 1 seed = ⟨[meanPoint (nCols pts) pts], 1⟩ ∧
    kmeansPredict pts (kmeansFit pts 1 seed) = List.replicate pts.length 0 := by
  have hinit : (List.range 1).map
      (fun i => pts.getD (lcg (seed + i) % pts.length) [])
      = [pts.getD (lcg (seed + 0) % pts.length) []] := rfl
  have hfit : kmeansFit pts 1 seed = ⟨[meanPoint (nCols pts) pts], 1⟩ := by
    rw [kmeansFit, hinit]
    exact kmeansLoop_single_step pts hne _ _ 298 0
  refine ⟨hfit, ?_⟩
  rw [hfit, kmeansPredict]
  exact assignAll_single _ _

/-- Witness for C5: two one-dimensional points with mean 2. -/
theorem kmeansFit_k1_witness :
    ([[(1:ℚ)], [3]] : List (List ℚ)) ≠ [] ∧
    kmeansFit [[(1:ℚ)], [3]] 1 42
      = ⟨[meanPoint (nCols [[(1:ℚ)], [3]]) [[(1:ℚ)], [3]]], 1⟩ ∧
    kmeansPredict [[(1:ℚ)], [3]] (kmeansFit [[(1:ℚ)], [3]] 1 42)
      = List.replicate ([[(1:ℚ)], [3]] : List (List ℚ)).length 0 :=
  ⟨by simp, (kmeansFit_k1 [[(1:ℚ)], [3]] 42 (by simp)).1,
    (kmeansFit_k1 [[(1:ℚ)], [3]] 42 (by simp)).2⟩

theorem kmeansLoop_iterations_le (pts : List (List ℚ)) (k rng : Nat) :
    ∀ (fuel : Nat) (cs : List (List ℚ)) (prev : List Nat) (iter : Nat),
      (kmeansLoop pts k rng fuel cs prev iter).iterations ≤ iter + fuel := by
  intro fuel
  induction fuel with
  | zero => intro cs prev iter; exact Nat.le_add_right iter 0
  | succ n ih =>
      intro cs prev iter
      simp only [kmeansLoop]
      split_ifs with h
      · exact Nat.le_add_right iter (n + 1)
      · exact le_trans (ih _ _ _) (by omega)

/-- **C6.** The Clusterer's fit always terminates: it is a total function
whose assign/recompute loop stops as soon as assignments are unchanged
between two consecutive iterations, and in every case performs at most the
fixed cap of 300 iterations, returning a best-effort state (never an
error). -/
theorem kmeansFit_terminates (pts : List (List ℚ)) (k seed : Nat) :
    (kmeansFit pts k seed).iterations ≤ maxIterations := by
  have h := kmeansLoop_iterations_le pts k (lcg seed) maxIterations
    ((List.range k).map (fun i => pts.getD (lcg (seed + i) % pts.length) [])) [] 0
  simpa [kmeansFit] using h

/-- Modelled from the spec (§4.5): the Evaluator's confusion matrix
(the implementation, `sklearn.metrics.confusion_matrix`, is not part of
this repository's sources): an `n × n` matrix whose cell `(i, j)` counts
the samples whose true class is `i` and predicted class is `j`. -/
def confusionMatrix (yTrue yPred : List Nat) (n : Nat) : List (List Nat) :=
  (List.range n).map (fun i => (List.range n).map (fun j =>
    (yTrue.zip yPred).countP (fun p => decide (p.1 = i) && decide (p.2 = j))))

theorem sum_map_add_nat {β : Type} (l : List β) (f g : β → Nat) :
    (l.map (fun x => f x + g x)).sum = (l.map f).sum + (l.map g).sum := by
  induction l with
  | nil => rfl
  | cons a t ih =>
      simp only [List.map_cons, List.sum_cons, ih]
      omega

theorem sum_map_range_indicator (n v w : Nat) (hv : v < n) :
    ((List.range n).map (fun j => if v = j then w else 0)).sum = w := by
  induction n with
  | zero => omega
  | succ m ih =>
      rw [List.range_succ, List.map_append, List.sum_append]
      by_cases h : v = m
      · subst h
        have h0 : ((List.range v).map (fun j => if v = j then w else 0)).sum = 0 := by
          apply List.sum_eq_zero
          intro x hx
          simp only [List.mem_map, List.mem_range] at hx
          obtain ⟨j, hj, rfl⟩ := hx
          rw [if_neg (by omega)]
        simp [h0]
      · rw [ih (by omega)]
        simp [h]

theorem countP_pair_row (l : List (Nat × Nat)) (i n : Nat)
    (hl : ∀ p ∈ l, p.2 < n) :
    ((List.range n).map (fun j =>
        l.countP (fun p => decide (p.1 = i) && decide (p.2 = j)))).sum
      = l.countP (fun p => decide (p.1 = i)) := by
  induction l with
  | nil => simp
  | cons p t ih =>
      have hp : p.2 < n := hl p (List.mem_cons_self _ _)
      have ht : ∀ q ∈ t, q.2 < n := fun q hq => hl q (List.mem_cons_of_mem _ hq)
      simp only [List.countP_cons]
      rw [sum_map_add_nat, ih ht]
      congr 1
      by_cases hi : p.1 = i
      · simp only [hi, decide_True, Bool.true_and, Bool.and_true, if_true]
        have := sum_map_range_indicator n p.2 1 hp
        simpa [decide_eq_true_eq] using this
      · simp [hi]

theorem countP_zip_fst (xs ys : List Nat) (i : Nat) (h : xs.length = ys.length) :
    (xs.zip ys).countP (fun p => decide (p.1 = i)) = xs.count i := by
  induction xs generalizing ys with
  | nil => simp
  | cons x t ih =>
      cases ys with
      | nil => simp at h
      | cons y u =>
          simp only [List.zip_cons_cons, List.countP_cons, List.count_cons]
          rw [ih u (by simpa using h)]
          by_cases hx : x = i
          · subst hx
            simp
          · simp [hx, beq_iff_eq]

/-- **C7.** The Evaluator's confusion matrix over `n` classes is `n × n`,
its cell `(i, j)` counts the samples whose true class is `i` and predicted
class is `j`, and each row `i` sums to the number of occurrences of true
class `i`. -/
theorem confusionMatrix_spec (yTrue yPred : List Nat) (n : Nat)
    (hlen : yTrue.length = yPred.length)
    (hpred : ∀ c ∈ yPred, c < n) :
    (confusionMatrix yTrue yPred n).length = n ∧
    (∀ row ∈ confusionMatrix yTrue yPred n, row.length = n) ∧
    (∀ i j, i < n → j < n →
      ((confusionMatrix yTrue yPred n).getD i []).getD j 0
        = (yTrue.zip yPred).countP
            (fun p => decide (p.1 = i) && decide (p.2 = j))) ∧
    (∀ i, i < n →
      ((confusionMatrix yTrue yPred n).getD i []).sum = yTrue.count i) := by
  have hzip : ∀ p ∈ yTrue.zip yPred, p.2 < n := by
    intro p hp
    exact hpred p.2 (List.of_mem_zip hp).2
  have hrow : ∀ i, i < n → (confusionMatrix yTrue yPred n).getD i []
      = (List.range n).map (fun j =>
          (yTrue.zip yPred).countP (fun p => decide (p.1 = i) && decide (p.2 = j))) := by
    intro i hi
    rw [confusionMatrix, getD_map_range _ _ _ _ hi]
  refine ⟨by simp [confusionMatrix], ?_, ?_, ?_⟩
  · intro row hrw
    simp only [confusionMatrix, List.mem_map] at hrw
    obtain ⟨i, _, rfl⟩ := hrw
    simp
  · intro i j hi hj
    rw [hrow i hi, getD_map_range _ _ _ _ hj]
  · intro i hi
    rw [hrow i hi, countP_pair_row _ _ _ hzip, countP_zip_fst _ _ _ hlen]

/-- Witness for C7: four samples over three classes. -/
theorem confusionMatrix_spec_witness :
    ([0, 1, 1, 2] : List Nat).length = ([0, 1, 2, 2] : List Nat).length ∧
    (∀ c ∈ ([0, 1, 2, 2] : List Nat), c < 3) ∧
    ((confusionMatrix [0, 1, 1, 2] [0, 1, 2, 2] 3).getD 1 []).sum
      = ([0, 1, 1, 2] : List Nat).count 1 :=
  ⟨by decide, by decide,
    (confusionMatrix_spec [0, 1, 1, 2] [0, 1, 2, 2] 3 (by decide)
      (by decide)).2.2.2 1 (by decide)⟩

/-- Map a raw label sum to the final particle label, as in the notebook's
`lambda x: 2 if x > 1 else x`. -/
def clampLabel (x : Nat) : Nat := if x > 1 then 2 else x

/-- The label construction of `generate_synthetic_data` in the
particle-physics notebook: the element-wise sum of the two 0/1 indicator
draws (`known_particles + unknown_particle`), with any sum above 1 mapped
to class 2 (the unknown particle). -/
def makeLabels (known unknown : List Nat) : List Nat :=
  ((known.zip unknown).map (fun p => p.1 + p.2)).map clampLabel

/-- **C10.** The particle-physics data generator's label vector has the same
length as the feature matrix (`n_samples` rows), and every label it produces
lies in `{0, 1, 2}`. -/
theorem makeLabels_range (known unknown : List Nat) (n : Nat)
    (hk : known.length = n) (hu : unknown.length = n) :
    (makeLabels known unknown).length = n ∧
    ∀ l ∈ makeLabels known unknown, l = 0 ∨ l = 1 ∨ l = 2 := by
  constructor
  · simp [makeLabels, List.length_zip, hk, hu]
  · intro l hl
    simp only [makeLabels, List.mem_map] at hl
    obtain ⟨s, _, rfl⟩ := hl
    unfold clampLabel
    split_ifs with h
    · right; right; rfl
    · omega

/-- Witness for C10: three samples with indicator draws summing to 0, 1, 2. -/
theorem makeLabels_range_witness :
    ([0, 1, 1] : List Nat).length = 3 ∧ ([0, 0, 1] : List Nat).length = 3 ∧
    (makeLabels [0, 1, 1] [0, 0, 1]).length = 3 ∧
    ∀ l ∈ makeLabels [0, 1, 1] [0, 0, 1], l = 0 ∨ l = 1 ∨ l = 2 :=
  ⟨by decide, by decide,
    (makeLabels_range [0, 1, 1] [0, 0, 1] 3 (by decide) (by decide)).1,
    (makeLabels_range [0, 1, 1] [0, 0, 1] 3 (by decide) (by decide)).2⟩

/-- A decision tree: leaves carry a predicted label; internal nodes carry
the split feature, the threshold, and the impurity reduction the split
achieved (§3, "Trained Classifier State"). -/
inductive DecisionTree where
  | leaf (label : Nat)
  | node (feature : Nat) (threshold : ℚ) (gain : ℚ)
      (left right : DecisionTree)
  deriving Repr, DecidableEq

/-- Gini impurity of a label list (0 on the empty list). -/
def giniImpurity (ys : List Nat) : ℚ :=
  if ys = [] then 0
  else 1 - ((ys.dedup).map (fun c => ((ys.count c : ℚ) / ys.length) ^ 2)).sum

/-- Labelled rows whose feature `f` lies at or below the threshold. -/
def splitLE (data : List (List ℚ × Nat)) (f : Nat) (t : ℚ) :
    List (List ℚ × Nat) :=
  data.filter (fun xy => decide (xy.1.getD f 0 ≤ t))

/-- Labelled rows whose feature `f` lies above the threshold. -/
def splitGT (data : List (List ℚ × Nat)) (f : Nat) (t : ℚ) :
    List (List ℚ × Nat) :=
  data.filter (fun xy => decide (t < xy.1.getD f 0))

/-- Gini impurity reduction achieved by splitting at `(f, t)`. -/
def splitGain (data : List (List ℚ × Nat)) (f : Nat) (t : ℚ) : ℚ :=
  giniImpurity (data.map Prod.snd)
    - (((splitLE data f t).length : ℚ) / data.length)
        * giniImpurity ((splitLE data f t).map Prod.snd)
    - (((splitGT data f t).length : ℚ) / data.length)
        * giniImpurity ((splitGT data f t).map Prod.snd)

/-- Candidate feature/threshold pairs: every value of every considered
feature present in the data. -/
def candidateSplits (data : List (List ℚ × Nat)) (feats : List Nat) :
    List (Nat × ℚ) :=
  (feats.map (fun f =>
    ((data.map (fun xy => xy.1.getD f 0)).dedup).map (fun v => (f, v)))).flatten

/-- The candidate with maximal gain (first maximum wins). -/
def bestOver (data : List (List ℚ × Nat)) (cands : List (Nat × ℚ)) :
    Option (Nat × ℚ × ℚ) :=
  cands.foldl (fun best ft =>
    match best with
    | none => some (ft.1, ft.2, splitGain data ft.1 ft.2)
    | some b =>
        if b.2.2 < splitGain data ft.1 ft.2 then
          some (ft.1, ft.2, splitGain data ft.1 ft.2)
        else best) none

/-- Most frequent label (ties broken by lowest label; 0 on empty input). -/
def majorityLabel (ys : List Nat) : Nat :=
  ys.dedup.foldl (fun best c =>
    if ys.count best < ys.count c ∨ (ys.count c = ys.count best ∧ c < best)
    then c else best) (ys.headD 0)

/-- Pseudo-random subset of ⌊√d⌋ features considered at a split (§4.4). -/
def featureSubset (d s : Nat) : List Nat :=
  (shuffle s (List.range d)).take (Nat.sqrt d)

/-- Bootstrap resample: `n` pseudo-random draws with replacement (§4.4). -/
def bootstrap (data : List (List ℚ × Nat)) (s : Nat) :
    List (List ℚ × Nat) :=
  (List.range data.length).map
    (fun i => data.getD (lcg (s + i) % data.length) ([], 0))

/-- Depth cap stopping tree growth (§4.4, "a stopping condition"). -/
def maxDepth : Nat := 10

/-- Modelled from the spec (§4.4): recursive greedy tree construction
(the implementation, `sklearn.ensemble.RandomForestClassifier`, is not part
of this repository's sources): split on the candidate maximizing Gini
impurity reduction over a random feature subset; stop on label purity,
non-positive gain, an empty side, or the depth cap. -/
def buildTree : Nat → List (List ℚ × Nat) → Nat → DecisionTree
  | 0, data, _ => .leaf (majorityLabel (data.map Prod.snd))
  | depth + 1, data, rng =>
      if ((data.map Prod.snd).dedup).length ≤ 1 then
        .leaf (majorityLabel (data.map Prod.snd))
      else
        match bestOver data (candidateSplits data
            (featureSubset (nCols (data.map Prod.fst)) rng)) with
        | none => .leaf (majorityLabel (data.map Prod.snd))
        | some (f, t, g) =>
            if g ≤ 0 then .leaf (majorityLabel (data.map Prod.snd))
            else if splitLE data f t = [] ∨ splitGT data f t = [] then
              .leaf (majorityLabel (data.map Prod.snd))
            else
              .node f t g (buildTree depth (splitLE data f t) (lcg rng))
                (buildTree depth (splitGT data f t) (lcg (lcg rng)))

/-- Trained Classifier state: the tree ensemble plus the feature count. -/
structure ForestState where
  trees : List DecisionTree
  nFeatures : Nat
  deriving Repr, DecidableEq

/-- Modelled from the spec (§4.4): `RandomForestClassifier(...).fit`:
fails with `EmptyTrainingSetError` on zero rows and with
`LabelCardinalityError` when fewer than two distinct labels are present;
otherwise builds `numTrees` trees, each on a seeded bootstrap resample. -/
def rfFit (trainX : List (List ℚ)) (y : List Nat) (numTrees seed : Nat) :
    Except PipelineError ForestState :=
  if trainX.length = 0 then .error .EmptyTrainingSetError
  else if (y.dedup).length < 2 then .error .LabelCardinalityError
  else
    .ok ⟨(List.range numTrees).map (fun t =>
        buildTree maxDepth (bootstrap (trainX.zip y) (lcg (seed + t)))
          (lcg (seed * (t + 1)))),
      nCols trainX⟩

/-- Route a sample through a tree to its leaf label. -/
def treePredict : DecisionTree → List ℚ → Nat
  | .leaf l, _ => l
  | .node f t _ lt rt, x =>
      if x.getD f 0 ≤ t then treePredict lt x else treePredict rt x

/-- Modelled from the spec (§4.4): `predict` aggregates per-tree predictions
by majority vote, ties broken by lowest class index. -/
def rfPredict (m : List (List ℚ)) (st : ForestState) : List Nat :=
  m.map (fun x => majorityLabel (st.trees.map (fun tr => treePredict tr x)))

/-- All `(feature, gain)` pairs recorded at the internal nodes of a tree. -/
def treeGains : DecisionTree → List (Nat × ℚ)
  | .leaf _ => []
  | .node f _ g l r => (f, g) :: (treeGains l ++ treeGains r)

/-- All `(feature, gain)` pairs across the whole ensemble. -/
def allGains (st : ForestState) : List (Nat × ℚ) :=
  (st.trees.map treeGains).flatten

/-- Per-feature total impurity reduction across all trees (§4.4). -/
def rawImportance (st : ForestState) : List ℚ :=
  (List.range st.nFeatures).map
    (fun f => (((allGains st).filter (fun fg => decide (fg.1 = f))).map
      Prod.snd).sum)

/-- Modelled from the spec (§4.4): `featureImportance` aggregates, per
feature, the total impurity reduction attributed to splits using that
feature across all trees, normalized to sum to 1. -/
def featureImportance (st : ForestState) : List ℚ :=
  (rawImportance st).map (fun r => r / (rawImportance st).sum)

/-- **C4.** The Classifier's fit fails with `EmptyTrainingSetError` on a
training matrix with zero rows, and with `LabelCardinalityError` on a
non-empty training set presenting fewer than two distinct labels. -/
theorem rfFit_guards (X : List (List ℚ)) (y : List Nat)
    (numTrees seed : Nat) :
    (X = [] → rfFit X y numTrees seed = .error .EmptyTrainingSetError) ∧
    (X ≠ [] → (y.dedup).length < 2 →
      rfFit X y numTrees seed = .error .LabelCardinalityError) := by
  constructor
  · intro h
    subst h
    simp [rfFit]
  · intro hne hcard
    rw [rfFit, if_neg (fun h => hne (List.length_eq_zero.mp h)), if_pos hcard]

/-- Witness for C4: the empty matrix, and a two-row matrix with one label. -/
theorem rfFit_guards_witness :
    rfFit ([] : List (List ℚ)) [] 100 42 = .error .EmptyTrainingSetError ∧
    (([[(1:ℚ)], [2]] : List (List ℚ)) ≠ [] ∧
      (([0, 0] : List Nat).dedup).length < 2 ∧
      rfFit [[(1:ℚ)], [2]] [0, 0] 100 42 = .error .LabelCardinalityError) :=
  ⟨(rfFit_guards [] [] 100 42).1 rfl,
    by simp, by decide,
    (rfFit_guards [[(1:ℚ)], [2]] [0, 0] 100 42).2 (by simp) (by decide)⟩

theorem buildTree_gains_nonneg :
    ∀ (depth : Nat) (data : List (List ℚ × Nat)) (rng : Nat),
      ∀ fg ∈ treeGains (buildTree depth data rng), 0 ≤ fg.2 := by
  intro depth
  induction depth with
  | zero =>
      intro data rng fg hfg
      simp [buildTree, treeGains] at hfg
  | succ d ih =>
      intro data rng fg hfg
      rw [buildTree] at hfg
      split at hfg
      · simp [treeGains] at hfg
      · split at hfg
        · simp [treeGains] at hfg
        · rename_i f t g
          split at hfg
          · simp [treeGains] at hfg
          · split at hfg
            · simp [treeGains] at hfg
            · rename_i hgpos _
              simp only [treeGains, List.mem_cons, List.mem_append] at hfg
              rcases hfg with rfl | h | h
              · exact le_of_lt (lt_of_not_le hgpos)
              · exact ih _ _ fg h
              · exact ih _ _ fg h

/-- Every gain recorded in a fitted ensemble is non-negative: the builder
creates a split node only when its impurity reduction is positive. -/
theorem rfFit_gains_nonneg (X : List (List ℚ)) (y : List Nat)
    (numTrees seed : Nat) (st : ForestState)
    (h : rfFit X y numTrees seed = .ok st) :
    ∀ fg ∈ allGains st, 0 ≤ fg.2 := by
  rw [rfFit] at h
  by_cases h1 : X.length = 0
  · rw [if_pos h1] at h
    exact absurd h (by simp)
  · rw [if_neg h1] at h
    by_cases h2 : (y.dedup).length < 2
    · rw [if_pos h2] at h
      exact absurd h (by simp)
    · rw [if_neg h2] at h
      rw [Except.ok.injEq] at h
      subst h
      intro fg hfg
      simp only [allGains, List.mem_flatten, List.mem_map] at hfg
      obtain ⟨gl, ⟨tr, htr, rfl⟩, hmem⟩ := hfg
      simp only [List.mem_map, List.mem_range] at htr
      obtain ⟨i, _, rfl⟩ := htr
      exact buildTree_gains_nonneg _ _ _ fg hmem

/-- Counterexample to C8 as frozen: `rfFit [[1], [2]] [0, 1] 0 42` passes
both guards and yields the trained state `⟨[], 1⟩`, an ensemble that
recorded no split, whose feature-importance vector sums to 0, not 1 — so
the unconditional "sums to 1" claim fails on a trained state. -/
theorem featureImportance_counterexample :
    rfFit [[(1:ℚ)], [2]] [0, 1] 0 42 = .ok ⟨[], 1⟩ ∧
    (featureImportance ⟨[], 1⟩).sum = 0 ∧
    (featureImportance ⟨[], 1⟩).sum ≠ 1 := by
  have h0 : (featureImportance ⟨[], 1⟩ : List ℚ).sum = 0 := by
    have hr : List.range 1 = [0] := rfl
    simp [featureImportance, rawImportance, allGains, hr]
  refine ⟨?_, h0, by rw [h0]; norm_num⟩
  rw [rfFit, if_neg (by norm_num), if_neg (by norm_num)]
  rfl

/-- **C8 (amended).** For every trained classifier state whose recorded
splits carry a positive total impurity reduction (the recorded gains being
non-negative, as `rfFit_gains_nonneg` establishes for every fitted
ensemble), `featureImportance` returns one entry per feature, every entry
non-negative, and the entries sum exactly to 1; an ensemble that recorded
no split instead yields an importance total of 0 (see the
counterexample). -/
theorem featureImportance_spec (st : ForestState)
    (hgain : ∀ fg ∈ allGains st, 0 ≤ fg.2)
    (htot : 0 < (rawImportance st).sum) :
    (featureImportance st).length = st.nFeatures ∧
    (∀ v ∈ featureImportance st, 0 ≤ v) ∧
    (featureImportance st).sum = 1 := by
  refine ⟨by simp [featureImportance, rawImportance], ?_, ?_⟩
  · intro v hv
    simp only [featureImportance, List.mem_map] at hv
    obtain ⟨r, hr, rfl⟩ := hv
    apply div_nonneg _ (le_of_lt htot)
    simp only [rawImportance, List.mem_map, List.mem_range] at hr
    obtain ⟨f, _, rfl⟩ := hr
    apply List.sum_nonneg
    intro q hq
    simp only [List.mem_map] at hq
    obtain ⟨fg, hfg, rfl⟩ := hq
    exact hgain fg (List.mem_of_mem_filter hfg)
  · rw [featureImportance]
    have h := sum_map_div (rawImportance st) (fun r => r) ((rawImportance st).sum)
    simp only at h
    rw [h, List.map_id']
    exact div_self (ne_of_gt htot)

/-- Witness for C8: a single-tree ensemble with one split of gain 1 over two
features. -/
theorem featureImportance_spec_witness :
    (∀ fg ∈ allGains ⟨[.node 0 (1/2) 1 (.leaf 0) (.leaf 1)], 2⟩, 0 ≤ fg.2) ∧
    0 < (rawImportance ⟨[.node 0 (1/2) 1 (.leaf 0) (.leaf 1)], 2⟩).sum ∧
    (featureImportance ⟨[.node 0 (1/2) 1 (.leaf 0) (.leaf 1)], 2⟩).sum = 1 := by
  have hgain : ∀ fg ∈ allGains ⟨[.node 0 (1/2) 1 (.leaf 0) (.leaf 1)], 2⟩,
      (0:ℚ) ≤ fg.2 := by
    intro fg hfg
    simp only [allGains, treeGains, List.map_cons, List.map_nil,
      List.flatten] at hfg
    simp at hfg
    rw [hfg]
    norm_num
  have htot : (0:ℚ)
      < (rawImportance ⟨[.node 0 (1/2) 1 (.leaf 0) (.leaf 1)], 2⟩).sum := by
    norm_num [rawImportance, allGains, treeGains, List.range_succ]
  exact ⟨hgain, htot,
    (featureImportance_spec ⟨[.node 0 (1/2) 1 (.leaf 0) (.leaf 1)], 2⟩
      hgain htot).2.2⟩

/-- **C9.** After fitting, `transform` and `predict` are deterministic
functions of the input and the declared fitted state alone: the scaler
transform depends only on (μ, σ), the clusterer predict only on the stored
centroids (not on the recorded iteration count), and the forest predict only
on the trees; no hidden randomness remains once the state is fixed, all
randomness having entered through the explicit seed parameters of the
fitting operations. -/
theorem transform_predict_deterministic
    (m : List (List ℚ)) (s1 s2 : ScalerState) (c1 c2 : ClusterState)
    (f1 f2 : ForestState)
    (hmu : s1.mu = s2.mu) (hsig : s1.sigma = s2.sigma)
    (hc : c1.centroids = c2.centroids) (hf : f1.trees = f2.trees) :
    scalerTransform m s1 = scalerTransform m s2 ∧
    kmeansPredict m c1 = kmeansPredict m c2 ∧
    rfPredict m f1 = rfPredict m f2 := by
  refine ⟨?_, ?_, ?_⟩
  · rw [scalerTransform, scalerTransform, hmu, hsig]
  · rw [kmeansPredict, kmeansPredict, hc]
  · rw [rfPredict, rfPredict, hf]

/-- Witness for C9: states equal in their semantic fields but fitted with
different recorded iteration counts / feature counts predict identically. -/
theorem transform_predict_deterministic_witness :
    (⟨[[1]], 0⟩ : ClusterState).centroids
      = (⟨[[1]], 7⟩ : ClusterState).centroids ∧
    scalerTransform [[(2:ℚ)]] ⟨[0], [1]⟩ = scalerTransform [[(2:ℚ)]] ⟨[0], [1]⟩ ∧
    kmeansPredict [[(2:ℚ)]] ⟨[[1]], 0⟩ = kmeansPredict [[(2:ℚ)]] ⟨[[1]], 7⟩ ∧
    rfPredict [[(2:ℚ)]] ⟨[.leaf 0], 1⟩ = rfPredict [[(2:ℚ)]] ⟨[.leaf 0], 5⟩ :=
  ⟨rfl,
    (transform_predict_deterministic [[(2:ℚ)]] ⟨[0], [1]⟩ ⟨[0], [1]⟩
      ⟨[[1]], 0⟩ ⟨[[1]], 7⟩ ⟨[.leaf 0], 1⟩ ⟨[.leaf 0], 5⟩ rfl rfl rfl rfl).1,
    (transform_predict_deterministic [[(2:ℚ)]] ⟨[0], [1]⟩ ⟨[0], [1]⟩
      ⟨[[1]], 0⟩ ⟨[[1]], 7⟩ ⟨[.leaf 0], 1⟩ ⟨[.leaf 0], 5⟩ rfl rfl rfl rfl).2.1,
    (transform_predict_deterministic [[(2:ℚ)]] ⟨[0], [1]⟩ ⟨[0], [1]⟩
      ⟨[[1]], 0⟩ ⟨[[1]], 7⟩ ⟨[.leaf 0], 1⟩ ⟨[.leaf 0], 5⟩ rfl rfl rfl rfl).2.2⟩

end PhysicsAI
